import Mathlib

set_option linter.unusedVariables false

/-
Verification of the job-scheduler-v2 core (script/job_scheduler.py and
script/db_util.py) via a shallow embedding.

Modelling conventions:
- The SQLite `jobs` table is a `List Job` in row order; the companion
  `job_dependencies` table is a list of `(job_id, depends_on)` pairs.
- SQL TEXT is `String`, INTEGER is `Int`, REAL is `ℚ` (exact rationals in
  place of IEEE doubles; every comparison the theorems touch is
  rounding-free), NULL is `none`.
- `datetime('now')` is passed in as an explicit `now : String` argument.
- Theorems about the deadline predicate assume `0 < speed_factor`, the
  domain on which rational division agrees with SQLite's REAL division
  (SQLite yields NULL on division by zero).
- SQLite's ORDER BY on a TEXT primary key compares UTF-8 bytes, which for
  `String` coincides with Mathlib's lexicographic linear order.
-/

namespace JobScheduler

/-- A row of the `jobs` table (schema from db_util.JobDatabase.create_schema,
lines 73-86). Reserved scheduler columns are explicit fields; the open set of
user columns is `user_cols`, a (name, value) list in declared column order. -/
structure Job where
  job_id        : String
  status        : String
  priority      : Int
  estimate_time : ℚ
  elapsed_time  : Option ℚ
  created_at    : Option String
  started_at    : Option String
  finished_at   : Option String
  error_message : Option String
  depends_on    : Option String
  heartbeat     : Option String
  worker_id     : Option String
  user_cols     : List (String × Option String)
deriving Repr, DecidableEq

/-- The shared store: the `jobs` table plus the `job_dependencies` table
(rows `(job_id, depends_on)`, created in db_util lines 109-115). -/
structure SchedState where
  jobs : List Job
  deps : List (String × String)
deriving Repr, DecidableEq

/-- Helper to build a job row with the given identity, status and priority,
all other columns at their defaults. -/
def mkJob (id st9 : String) (priority : Int) : Job :=
  { job_id := id, status := st9, priority := priority, estimate_time := 0,
    elapsed_time := none, created_at := none, started_at := none,
    finished_at := none, error_message := none, depends_on := none,
    heartbeat := none, worker_id := none, user_cols := [] }

/-- First row with the given job id, if present. -/
def lookupJob : List Job → String → Option Job
  | [], _ => none
  | j :: rest, id => if j.job_id = id then some j else lookupJob rest id

/-- Status of the row with the given id, if present. -/
def statusOf (st : SchedState) (id : String) : Option String :=
  (lookupJob st.jobs id).map Job.status

/-- Strict lexicographic order on character lists: the comparison SQLite's
BINARY collation performs on TEXT values (bytewise on UTF-8, which agrees
with codepointwise). -/
def charListLt : List Char → List Char → Bool
  | [], [] => false
  | [], _ :: _ => true
  | _ :: _, [] => false
  | a :: as, b :: bs => if a < b then true else if b < a then false else charListLt as bs

/-- Strict lexicographic order on job ids (SQLite TEXT ordering). -/
def jobIdLt (a b : String) : Bool := charListLt a.data b.data

/-- Lexicographic `≤` on job ids, as the negation of the strict order. -/
def jobIdLe (a b : String) : Bool := !(jobIdLt b a)

/-- The WHERE clause of JobScheduler.get_pending_job (job_scheduler.py lines
86-104): status must be 'pending', and when smart scheduling is on and the
available time is positive, `JOBSCHEDULER_ESTIMATE_TIME * 3600 / speed ≤
available`. With smart scheduling off, or non-positive available time, the
plain priority query (lines 98-104) applies. -/
def eligiblePred (smart : Bool) (speed avail : ℚ) (j : Job) : Bool :=
  if smart = true ∧ 0 < avail then
    decide (j.status = "pending") && decide (j.estimate_time * 3600 / speed ≤ avail)
  else
    decide (j.status = "pending")

/-- Rows satisfying the claim query's WHERE clause, in table order. -/
def eligibleJobs (smart : Bool) (speed avail : ℚ) (st : SchedState) : List Job :=
  st.jobs.filter (fun j => eligiblePred smart speed avail j)

/-- ORDER BY JOBSCHEDULER_PRIORITY DESC, JOBSCHEDULER_JOB_ID: the challenger
`k` strictly precedes the incumbent `best` iff it has higher priority, or
equal priority and lexicographically smaller job id. -/
def betterCandidate (best k : Job) : Bool :=
  decide (best.priority < k.priority) ||
    (decide (best.priority = k.priority) && jobIdLt k.job_id best.job_id)

/-- Job `a` weakly precedes job `b` in the claim query's output order
(priority DESC, then job id ASC). -/
def claimPrecedes (a b : Job) : Prop :=
  b.priority < a.priority ∨
    (b.priority = a.priority ∧ jobIdLe a.job_id b.job_id = true)

/-- One comparison step of extracting the first row of the sorted order. -/
def pickStep (best k : Job) : Job :=
  if betterCandidate best k = true then k else best

/-- The row a `SELECT ... ORDER BY priority DESC, job_id ASC LIMIT 1` returns:
the minimum of the candidate list under the sort order (none when empty).
Since `JOBSCHEDULER_JOB_ID` is the primary key the order is total, so the
minimum is the unique first row. -/
def selectFirst : List Job → Option Job
  | [] => none
  | j :: rest => some (rest.foldl pickStep j)

/-- The row transformation of the claim's UPDATE (lines 117-122): rows whose
JOBSCHEDULER_JOB_ID matches become 'running' with started_at = now. -/
def claimUpdate (jid now : String) (r : Job) : Job :=
  if r.job_id = jid then { r with status := "running", started_at := some now }
  else r

/-- JobScheduler.get_pending_job (lines 73-133): select the first eligible
pending row; if none, return no job and leave the store unchanged; otherwise
return the row (as selected, still showing status 'pending') and update the
rows with that job id to status 'running' with started_at = now (lines
117-124). Lock-conflict rollback is not modelled (it returns none with no
mutation, indistinguishable from the empty case). -/
def get_pending_job (smart : Bool) (speed avail : ℚ) (now : String)
    (st : SchedState) : Option Job × SchedState :=
  match selectFirst (eligibleJobs smart speed avail st) with
  | none => (none, st)
  | some j => (some j, { st with jobs := st.jobs.map (claimUpdate j.job_id now) })

/-- JobScheduler.mark_job_done (lines 174-197): set the four columns
JOBSCHEDULER_STATUS, JOBSCHEDULER_ELAPSED_TIME, JOBSCHEDULER_FINISHED_AT,
JOBSCHEDULER_ERROR_MESSAGE on every row whose job id matches; all other
columns and rows are untouched. An absent id updates zero rows and raises
no error (SQLite UPDATE with an empty match set succeeds). -/
def finalizeUpdate (id st9 : String) (elapsed : ℚ) (err : Option String)
    (now : String) (j : Job) : Job :=
  if j.job_id = id then
    { j with status := st9, elapsed_time := some elapsed,
             finished_at := some now, error_message := err }
  else j

/-- JobScheduler.mark_job_done as a store operation: apply the finalize
UPDATE (lines 182-189) to every row. -/
def mark_job_done (id st9 : String) (elapsed : ℚ) (err : Option String)
    (now : String) (st : SchedState) : SchedState :=
  { st with jobs := st.jobs.map (finalizeUpdate id st9 elapsed err now) }

/-- The row transformation of the recovery UPDATE (lines 156-161): rows in
status 'running' go back to 'pending' with started_at = NULL. -/
def resetRunning (j : Job) : Job :=
  if j.status = "running" then { j with status := "pending", started_at := none }
  else j

/-- JobScheduler.recover_stuck_jobs (lines 135-172): count rows with status
'running'; when the count is positive, apply the reset UPDATE to every row;
otherwise leave the store alone. The Python function has no return
statement, so its value is None, modelled as the second component
`none : Option Int`. -/
def recover_stuck_jobs (st : SchedState) : SchedState × Option Int :=
  if 0 < (st.jobs.filter (fun j => decide (j.status = "running"))).length then
    ({ st with jobs := st.jobs.map resetRunning }, none)
  else (st, none)

/-- The reserved-column set hardcoded inside JobScheduler.build_command
(job_scheduler.py lines 209-214). Note it has only nine names. -/
def BUILD_RESERVED : List String :=
  ["JOBSCHEDULER_JOB_ID", "JOBSCHEDULER_STATUS", "JOBSCHEDULER_PRIORITY",
   "JOBSCHEDULER_ESTIMATE_TIME", "JOBSCHEDULER_ELAPSED_TIME",
   "JOBSCHEDULER_CREATED_AT", "JOBSCHEDULER_STARTED_AT",
   "JOBSCHEDULER_FINISHED_AT", "JOBSCHEDULER_ERROR_MESSAGE"]

/-- JobDatabase.RESERVED_COLUMNS (db_util.py lines 23-36): the repository's
authoritative reserved set, which additionally contains
JOBSCHEDULER_DEPENDS_ON, JOBSCHEDULER_HEARTBEAT and JOBSCHEDULER_WORKER_ID. -/
def RESERVED_COLUMNS : List String :=
  BUILD_RESERVED ++
  ["JOBSCHEDULER_DEPENDS_ON", "JOBSCHEDULER_HEARTBEAT", "JOBSCHEDULER_WORKER_ID"]

/-- Helper for whitespace tokenization, accumulating the current token in
reverse. -/
def splitWsAux : List Char → List Char → List String
  | [], acc => if acc.isEmpty then [] else [String.mk acc.reverse]
  | c :: cs, acc =>
      if c.isWhitespace then
        if acc.isEmpty then splitWsAux cs []
        else String.mk acc.reverse :: splitWsAux cs []
      else splitWsAux cs (c :: acc)

/-- Python's str.split() with no argument: split on runs of whitespace,
discarding empty tokens (job_scheduler.py line 202, `self.command.split()`). -/
def strTokens (s : String) : List String := splitWsAux s.data []

/-- Python's str.endswith. -/
def strEndsWith (s suffix : String) : Bool := suffix.data.isSuffixOf s.data

/-- Python's str.startswith. -/
def strStartsWith (s pre : String) : Bool := pre.data.isPrefixOf s.data

/-- JobScheduler.build_command (lines 199-228). The job row is the full
`SELECT *` row as a (column name, value) list in declared column order, a
value of `none` for SQL NULL and `some s` for `str(value)` otherwise.
Tokenize the command, prepend `bash` for a lone `.sh` token not already
starting with `bash`, then append, per non-null column whose name is NOT in
the nine-element set of lines 209-214, either the value (positional mode) or
`--name` followed by the value (named mode). -/
def build_command (command : String) (named_args : Bool)
    (job : List (String × Option String)) : List String :=
  let cmd0 := strTokens command
  let cmd :=
    match cmd0 with
    | [c] => if strEndsWith c ".sh" = true ∧ strStartsWith c "bash" = false
             then ["bash", c] else [c]
    | _ => cmd0
  cmd ++ job.foldr (fun kv rest =>
      match kv.2 with
      | none => rest
      | some v =>
          if kv.1 ∈ BUILD_RESERVED then rest
          else if named_args then ("--" ++ kv.1) :: v :: rest
          else v :: rest) []

/-- How a supervised subprocess run ends (JobScheduler.run_job, lines
279-303): the wall-clock deadline fires first, the shutdown flag is observed
(before or instead of normal exit), or the child exits with a code. -/
inductive RunEnd where
  | timeout
  | shutdown
  | exited (code : Int)
deriving Repr, DecidableEq

/-- The (return_code, error_message) pair run_job reports for each way the
run can end (lines 279-315): deadline kill gives -2 with the timeout
message, shutdown kill gives -2 with the interrupt message, and a normal
exit reports the child's code, with "Process exited with code N" when it is
non-zero. -/
def run_job_result : RunEnd → Int × Option String
  | RunEnd.timeout => (-2, some "Timeout: exceeded maximum runtime")
  | RunEnd.shutdown => (-2, some "Interrupted by shutdown signal")
  | RunEnd.exited code =>
      (code, if code = 0 then none
             else some ("Process exited with code " ++ toString code))

/-- The worker's outcome-recording step (run_scheduling_worker, lines
352-362): when the shutdown flag is set, record nothing; otherwise code 0
finalizes 'done', code -2 re-queues the job as 'pending' with the error
message, and anything else finalizes 'error'. -/
def worker_record_outcome (shutdown_set : Bool) (id : String)
    (return_code : Int) (elapsed : ℚ) (error_message : Option String)
    (now : String) (st : SchedState) : SchedState :=
  if shutdown_set = true then st
  else if return_code = 0 then mark_job_done id "done" elapsed none now st
  else if return_code = -2 then mark_job_done id "pending" elapsed error_message now st
  else mark_job_done id "error" elapsed error_message now st

/-- The process-wide shutdown flag after a run ends. The signal handler only
ever sets the flag (lines 38-45) and nothing clears it, so it is monotone;
a run can only end via the shutdown branch when the flag is set, hence the
flag observed by the recording step is then necessarily true. -/
def shutdown_flag_after (flag_before : Bool) (ev : RunEnd) : Bool :=
  flag_before || decide (ev = RunEnd.shutdown)

/-- One claimed job's run-and-record step of the worker loop (lines
349-362): run the job (modelled by how the run ends), then record the
outcome under the shutdown flag as it stands after the run. -/
def worker_step_after_run (flag_before : Bool) (ev : RunEnd) (id : String)
    (elapsed : ℚ) (now : String) (st : SchedState) : SchedState :=
  worker_record_outcome (shutdown_flag_after flag_before ev) id
    (run_job_result ev).1 elapsed (run_job_result ev).2 now st

/-- The available time the worker loop computes each iteration
(run_scheduling_worker, line 334). -/
def worker_available (max_runtime elapsed margin : ℚ) : ℚ :=
  max_runtime - elapsed - margin

/-- Whether the worker loop proceeds to claim a job this iteration (lines
330-338): it stops when the total runtime is exhausted or the available
time (minus margin) is non-positive. -/
def worker_continues (max_runtime elapsed margin : ℚ) : Bool :=
  decide (elapsed < max_runtime) &&
    decide (0 < worker_available max_runtime elapsed margin)

/-- The store mutations of the core: a claim, a finalize, or a recovery. -/
inductive CoreOp where
  | claim (smart : Bool) (speed avail : ℚ) (now : String)
  | finalize (id st9 : String) (elapsed : ℚ) (err : Option String) (now : String)
  | recover

/-- Apply one core mutation to the store. -/
def applyOp : CoreOp → SchedState → SchedState
  | CoreOp.claim smart speed avail now, st => (get_pending_job smart speed avail now st).2
  | CoreOp.finalize id st9 elapsed err now, st => mark_job_done id st9 elapsed err now st
  | CoreOp.recover, st => (recover_stuck_jobs st).1

/-- Apply a sequence of core mutations in order. -/
def applyOps (ops : List CoreOp) (st : SchedState) : SchedState :=
  ops.foldl (fun s op => applyOp op s) st

/-- A row's identity and user columns: the data the core must never touch. -/
def userData (j : Job) : String × List (String × Option String) :=
  (j.job_id, j.user_cols)

/-- Iterated recovery (the state component only). -/
def recoverIter : Nat → SchedState → SchedState
  | 0, st => st
  | n + 1, st => recoverIter n (recover_stuck_jobs st).1

/-- A store with two pending jobs where the higher-priority one depends on
the other: rows a (pending, priority 0) and b (pending, priority 5), and the
dependency row (b, a). -/
def stDep : SchedState :=
  { jobs := [mkJob "a" "pending" 0, mkJob "b" "pending" 5], deps := [("b", "a")] }

/-- A store with a single claimed (running) job `a`. -/
def stRun : SchedState :=
  { jobs := [{ mkJob "a" "running" 0 with started_at := some "t0" }], deps := [] }

/-- A store with one pending job `a` and nothing else. -/
def stPend : SchedState :=
  { jobs := [mkJob "a" "pending" 0], deps := [] }

/-- A store with one running and one done job, for the recovery claims. -/
def stRec : SchedState :=
  { jobs := [{ mkJob "r1" "running" 0 with started_at := some "s0" },
             mkJob "d1" "done" 0],
    deps := [] }

/-- A store with two pending jobs of different priorities, for the priority
claim's witness. -/
def stPrio : SchedState :=
  { jobs := [mkJob "a" "pending" 1, mkJob "b" "pending" 2], deps := [] }

/-- A pending job with a one-hour estimate, for the deadline claim's witness. -/
def jEst : Job :=
  { mkJob "w" "pending" 0 with estimate_time := 1 }

/-- A job row as `SELECT *` produces it for a loaded job with a dependency:
all reserved columns present (the loader always writes JOBSCHEDULER_DEPENDS_ON,
db_util.py lines 165-166), plus one user column. -/
def jobRowDep : List (String × Option String) :=
  [("JOBSCHEDULER_JOB_ID", some "a"), ("JOBSCHEDULER_STATUS", some "pending"),
   ("JOBSCHEDULER_PRIORITY", some "5"), ("JOBSCHEDULER_ESTIMATE_TIME", some "0.0"),
   ("JOBSCHEDULER_ELAPSED_TIME", none), ("JOBSCHEDULER_CREATED_AT", some "c0"),
   ("JOBSCHEDULER_STARTED_AT", none), ("JOBSCHEDULER_FINISHED_AT", none),
   ("JOBSCHEDULER_ERROR_MESSAGE", none), ("JOBSCHEDULER_DEPENDS_ON", some "dep1"),
   ("JOBSCHEDULER_HEARTBEAT", some "hb0"), ("JOBSCHEDULER_WORKER_ID", some "w0"),
   ("alpha", some "42")]

/-- Lexicographic strict order is irreflexive. -/
theorem charListLt_irrefl (x : List Char) : charListLt x x = false := by
  induction x with
  | nil => rfl
  | cons a as ih => simp [charListLt, lt_self_iff_false, ih]

/-- Lexicographic strict order is transitive. -/
theorem charListLt_trans : ∀ (x y z : List Char),
    charListLt x y = true → charListLt y z = true → charListLt x z = true := by
  intro x
  induction x with
  | nil =>
      intro y z hxy hyz
      cases y with
      | nil => simp [charListLt] at hxy
      | cons b bs =>
        cases z with
        | nil => simp [charListLt] at hyz
        | cons c cs => rfl
  | cons a as ih =>
      intro y z hxy hyz
      cases y with
      | nil => simp [charListLt] at hxy
      | cons b bs =>
        cases z with
        | nil => simp [charListLt] at hyz
        | cons c cs =>
          simp only [charListLt] at hxy hyz ⊢
          rcases lt_trichotomy a b with hab | hab | hab
          · rcases lt_trichotomy b c with hbc | hbc | hbc
            · simp [lt_trans hab hbc]
            · subst hbc; simp [hab]
            · rw [if_neg (not_lt.mpr (le_of_lt hbc)), if_pos hbc] at hyz
              exact absurd hyz (by simp)
          · subst hab
            simp only [lt_self_iff_false, if_false] at hxy
            rcases lt_trichotomy a c with hac | hac | hac
            · simp [hac]
            · subst hac
              simp only [lt_self_iff_false, if_false] at hyz ⊢
              exact ih bs cs hxy hyz
            · rw [if_neg (not_lt.mpr (le_of_lt hac)), if_pos hac] at hyz
              exact absurd hyz (by simp)
          · rw [if_neg (not_lt.mpr (le_of_lt hab)), if_pos hab] at hxy
            exact absurd hxy (by simp)

/-- When neither list strictly precedes the other, they are equal. -/
theorem charListLt_conn : ∀ (x y : List Char),
    charListLt x y = false → charListLt y x = false → x = y := by
  intro x
  induction x with
  | nil =>
      intro y hxy _
      cases y with
      | nil => rfl
      | cons b bs => simp [charListLt] at hxy
  | cons a as ih =>
      intro y hxy hyx
      cases y with
      | nil => simp [charListLt] at hyx
      | cons b bs =>
        simp only [charListLt] at hxy hyx
        rcases lt_trichotomy a b with hab | hab | hab
        · rw [if_pos hab] at hxy
          exact absurd hxy (by simp)
        · subst hab
          simp only [lt_self_iff_false, if_false] at hxy hyx
          rw [ih bs hxy hyx]
        · rw [if_neg (not_lt.mpr (le_of_lt hab)), if_pos hab] at hyx
          exact absurd hyx (by simp)

/-- Strings with equal character data are equal. -/
theorem stringDataEq {a b : String} (h : a.data = b.data) : a = b :=
  String.ext h

/-- The job id strict order is asymmetric. -/
theorem jobIdLt_asymm {a b : String} (h : jobIdLt a b = true) :
    jobIdLt b a = false := by
  cases hq : jobIdLt b a with
  | false => rfl
  | true =>
      have h3 := charListLt_trans a.data b.data a.data h hq
      rw [charListLt_irrefl] at h3
      exact absurd h3 (by simp)

/-- The job id weak order is reflexive. -/
theorem jobIdLe_refl (s : String) : jobIdLe s s = true := by
  simp [jobIdLe, jobIdLt, charListLt_irrefl]

/-- Strict order implies weak order on job ids. -/
theorem jobIdLe_of_lt {a b : String} (h : jobIdLt a b = true) :
    jobIdLe a b = true := by
  simp [jobIdLe, jobIdLt_asymm h]

/-- The job id weak order is transitive. -/
theorem jobIdLe_trans {a b c : String} (h1 : jobIdLe a b = true)
    (h2 : jobIdLe b c = true) : jobIdLe a c = true := by
  simp only [jobIdLe, jobIdLt, Bool.not_eq_true'] at h1 h2 ⊢
  cases hca : charListLt c.data a.data with
  | false => rfl
  | true =>
      cases hab : charListLt a.data b.data with
      | true =>
          have h3 := charListLt_trans c.data a.data b.data hca hab
          rw [h3] at h2
          exact absurd h2 (by simp)
      | false =>
          have hdata := charListLt_conn a.data b.data hab h1
          have hstr : a = b := stringDataEq hdata
          subst hstr
          rw [hca] at h2
          exact absurd h2 (by simp)

/-- The claim output order is reflexive. -/
theorem claimPrecedes_refl (a : Job) : claimPrecedes a a :=
  Or.inr ⟨rfl, jobIdLe_refl a.job_id⟩

/-- The claim output order is transitive. -/
theorem claimPrecedes_trans {a b c : Job} (h1 : claimPrecedes a b)
    (h2 : claimPrecedes b c) : claimPrecedes a c := by
  rcases h1 with h1 | ⟨h1e, h1l⟩
  · rcases h2 with h2 | ⟨h2e, h2l⟩
    · exact Or.inl (lt_trans h2 h1)
    · exact Or.inl (by rw [h2e]; exact h1)
  · rcases h2 with h2 | ⟨h2e, h2l⟩
    · exact Or.inl (by rw [← h1e]; exact h2)
    · exact Or.inr ⟨h2e.trans h1e, jobIdLe_trans h1l h2l⟩

/-- A strictly better challenger precedes the incumbent. -/
theorem betterCandidate_true {a k : Job} (h : betterCandidate a k = true) :
    claimPrecedes k a := by
  simp only [betterCandidate, Bool.or_eq_true, Bool.and_eq_true,
    decide_eq_true_eq] at h
  rcases h with h | ⟨he, hl⟩
  · exact Or.inl h
  · exact Or.inr ⟨he, jobIdLe_of_lt hl⟩

/-- A challenger that is not strictly better is preceded by the incumbent. -/
theorem betterCandidate_false {a k : Job} (h : betterCandidate a k = false) :
    claimPrecedes a k := by
  have h1 : ¬ a.priority < k.priority := by
    intro hc
    simp [betterCandidate, hc] at h
  rcases lt_trichotomy k.priority a.priority with hlt | heq | hgt
  · exact Or.inl hlt
  · refine Or.inr ⟨heq, ?_⟩
    cases hkl : jobIdLt k.job_id a.job_id with
    | false => simp [jobIdLe, hkl]
    | true =>
        have hbt : betterCandidate a k = true := by
          simp [betterCandidate, heq, hkl]
        exact absurd hbt (by rw [h]; simp)
  · exact absurd hgt h1

/-- The incumbent of a comparison step precedes its left input. -/
theorem pickStep_precedes_left (a b : Job) : claimPrecedes (pickStep a b) a := by
  cases hb : betterCandidate a b with
  | false => simpa [pickStep, hb] using claimPrecedes_refl a
  | true => simpa [pickStep, hb] using betterCandidate_true hb

/-- The incumbent of a comparison step precedes its right input. -/
theorem pickStep_precedes_right (a b : Job) : claimPrecedes (pickStep a b) b := by
  cases hb : betterCandidate a b with
  | false => simpa [pickStep, hb] using betterCandidate_false hb
  | true => simpa [pickStep, hb] using claimPrecedes_refl b

/-- The fold that models ORDER BY ... LIMIT 1 returns a row preceding the
seed and every row of the list. -/
theorem foldl_pickStep_min (l : List Job) (a : Job) :
    claimPrecedes (l.foldl pickStep a) a ∧
      ∀ k ∈ l, claimPrecedes (l.foldl pickStep a) k := by
  induction l generalizing a with
  | nil =>
      exact ⟨claimPrecedes_refl a, fun k hk => absurd hk (List.not_mem_nil k)⟩
  | cons b t ih =>
      obtain ⟨iha, ihall⟩ := ih (pickStep a b)
      rw [List.foldl_cons]
      refine ⟨claimPrecedes_trans iha (pickStep_precedes_left a b), ?_⟩
      intro k hk
      rcases List.mem_cons.mp hk with rfl | hk2
      · exact claimPrecedes_trans iha (pickStep_precedes_right a k)
      · exact ihall k hk2

/-- The fold that models ORDER BY ... LIMIT 1 returns the seed or a list
element. -/
theorem foldl_pickStep_mem (l : List Job) (a : Job) :
    l.foldl pickStep a = a ∨ l.foldl pickStep a ∈ l := by
  induction l generalizing a with
  | nil => exact Or.inl rfl
  | cons b t ih =>
      rw [List.foldl_cons]
      rcases ih (pickStep a b) with h | h
      · rw [h]
        unfold pickStep
        split
        · exact Or.inr (List.mem_cons_self b t)
        · exact Or.inl rfl
      · exact Or.inr (List.mem_cons_of_mem b h)

/-- Recovery in closed form: both branches of the count test amount to
applying the reset transformation to every row (the zero-count branch skips
an update that would have been the identity), and the returned value is
always None. -/
theorem recover_stuck_jobs_eq (st : SchedState) :
    recover_stuck_jobs st = ({ st with jobs := st.jobs.map resetRunning }, none) := by
  unfold recover_stuck_jobs
  split
  · rfl
  · rename_i h
    have h0 : st.jobs.filter (fun j => decide (j.status = "running")) = [] := by
      rcases hf : st.jobs.filter (fun j => decide (j.status = "running")) with _ | ⟨x, xs⟩
      · exact hf
      · rw [hf] at h
        simp at h
    have hall : ∀ j ∈ st.jobs, ¬ (j.status = "running") := by
      intro j hj
      have hmem := List.filter_eq_nil_iff.mp h0 j hj
      simpa using hmem
    have hmap : st.jobs.map resetRunning = st.jobs := by
      have hpt : ∀ j ∈ st.jobs, resetRunning j = j := by
        intro j hj
        simp [resetRunning, hall j hj]
      calc st.jobs.map resetRunning = st.jobs.map id := List.map_congr_left hpt
        _ = st.jobs := List.map_id st.jobs
    rw [hmap]

/-- Resetting a row twice is the same as resetting it once. -/
theorem resetRunning_idem (j : Job) : resetRunning (resetRunning j) = resetRunning j := by
  by_cases h : j.status = "running"
  · simp [resetRunning, h]
  · simp [resetRunning, h]

/-- Recovery is a fixed point after one application. -/
theorem recover_fixpoint (st : SchedState) :
    (recover_stuck_jobs (recover_stuck_jobs st).1).1 = (recover_stuck_jobs st).1 := by
  rw [recover_stuck_jobs_eq st, recover_stuck_jobs_eq]
  simp only [List.map_map]
  congr 1
  exact List.map_congr_left (fun j hj => resetRunning_idem j)

/-- Iterating recovery one extra time never changes the result. -/
theorem recoverIter_succ (m : Nat) (st : SchedState) :
    recoverIter (m + 1) st = recoverIter 1 st := by
  induction m generalizing st with
  | zero => rfl
  | succ k ih =>
      show recoverIter (k + 1) (recover_stuck_jobs st).1 = recoverIter 1 st
      rw [ih]
      exact recover_fixpoint st

/-- The claim's row update never touches a row's identity or user columns. -/
theorem userData_claimUpdate (jid now : String) (r : Job) :
    userData (claimUpdate jid now r) = userData r := by
  unfold claimUpdate
  split <;> rfl

/-- The finalize row update never touches a row's identity or user columns. -/
theorem userData_finalizeUpdate (id st9 : String) (elapsed : ℚ)
    (err : Option String) (now : String) (j : Job) :
    userData (finalizeUpdate id st9 elapsed err now j) = userData j := by
  unfold finalizeUpdate
  split <;> rfl

/-- The recovery row update never touches a row's identity or user columns. -/
theorem userData_resetRunning (j : Job) :
    userData (resetRunning j) = userData j := by
  unfold resetRunning
  split <;> rfl

/-- A single core mutation preserves every row's identity and user columns. -/
theorem applyOp_userData (op : CoreOp) (st : SchedState) :
    (applyOp op st).jobs.map userData = st.jobs.map userData := by
  cases op with
  | claim smart speed avail now =>
      show ((get_pending_job smart speed avail now st).2).jobs.map userData = _
      unfold get_pending_job
      cases hsel : selectFirst (eligibleJobs smart speed avail st) with
      | none => rfl
      | some j =>
          simp only [hsel, List.map_map]
          exact List.map_congr_left (fun r hr => userData_claimUpdate j.job_id now r)
  | finalize id st9 elapsed err now =>
      show (mark_job_done id st9 elapsed err now st).jobs.map userData = _
      unfold mark_job_done
      simp only [List.map_map]
      exact List.map_congr_left (fun r hr => userData_finalizeUpdate id st9 elapsed err now r)
  | recover =>
      show ((recover_stuck_jobs st).1).jobs.map userData = _
      rw [recover_stuck_jobs_eq]
      simp only [List.map_map]
      exact List.map_congr_left (fun r hr => userData_resetRunning r)

/-- A sequence of core mutations preserves every row's identity and user
columns. -/
theorem applyOps_userData (ops : List CoreOp) (st : SchedState) :
    (applyOps ops st).jobs.map userData = st.jobs.map userData := by
  induction ops generalizing st with
  | nil => rfl
  | cons op rest ih =>
      show (applyOps rest (applyOp op st)).jobs.map userData = _
      rw [ih (applyOp op st), applyOp_userData]

/-- C1: the claim operation's query filters only on status (and the
deadline), never on the dependency table. On the store `stDep`, job b has
the dependency row (b, a) with a still 'pending' (not 'done'), yet
get_pending_job returns b and transitions it to 'running', contradicting
the claim that such a job is never claimed. -/
theorem claim_ignores_dependency_table :
    stDep.deps = [("b", "a")] ∧
    statusOf stDep "a" = some "pending" ∧
    (get_pending_job true 1 100 "t1" stDep).1 = some (mkJob "b" "pending" 5) ∧
    statusOf (get_pending_job true 1 100 "t1" stDep).2 "b" = some "running" := by
  refine ⟨rfl, by decide, ?_, ?_⟩
  · norm_num [get_pending_job, eligibleJobs, eligiblePred, selectFirst, pickStep,
      betterCandidate, stDep, mkJob, jobIdLt, charListLt, List.filter]
  · norm_num [get_pending_job, eligibleJobs, eligiblePred, selectFirst, pickStep,
      betterCandidate, stDep, mkJob, jobIdLt, charListLt, List.filter, statusOf,
      lookupJob, claimUpdate]
    simp

/-- C2: when a run ends because the shutdown flag was observed, the
supervisor reports (-2, "Interrupted by shutdown signal"), but the worker's
recording step sees the (monotone, never-cleared) flag set and records
nothing: on the store `stRun` holding the claimed job a in 'running', the
run-and-record step leaves the store unchanged, so the job stays 'running'
and is never set to 'pending', contradicting the claim. -/
theorem shutdown_kill_never_recorded :
    run_job_result RunEnd.shutdown = (-2, some "Interrupted by shutdown signal") ∧
    shutdown_flag_after false RunEnd.shutdown = true ∧
    worker_step_after_run false RunEnd.shutdown "a" 5 "t1" stRun = stRun ∧
    statusOf stRun "a" = some "running" := by
  refine ⟨rfl, rfl, by decide, by decide⟩

/-- C3: build_command's hardcoded reserved set omits the three reserved
columns JOBSCHEDULER_DEPENDS_ON, JOBSCHEDULER_HEARTBEAT and
JOBSCHEDULER_WORKER_ID of JobDatabase.RESERVED_COLUMNS, so on a row where
they are non-null their values (and in named mode their --flags) are
forwarded as subprocess argv, contradicting the claim. -/
theorem build_command_forwards_reserved_columns :
    build_command "run.py" false jobRowDep = ["run.py", "dep1", "hb0", "w0", "42"] ∧
    build_command "run.py" true jobRowDep =
      ["run.py", "--JOBSCHEDULER_DEPENDS_ON", "dep1", "--JOBSCHEDULER_HEARTBEAT", "hb0",
       "--JOBSCHEDULER_WORKER_ID", "w0", "--alpha", "42"] ∧
    "JOBSCHEDULER_DEPENDS_ON" ∈ RESERVED_COLUMNS ∧
    "JOBSCHEDULER_HEARTBEAT" ∈ RESERVED_COLUMNS ∧
    "JOBSCHEDULER_WORKER_ID" ∈ RESERVED_COLUMNS := by
  refine ⟨by decide, by decide, by decide, by decide, by decide⟩

/-- C4 counterexample: with smart scheduling on and available_seconds = 0,
get_pending_job does not return none: on the store `stPend` with one pending
job it claims that job and transitions it to 'running', contradicting the
claim. -/
theorem claim_with_zero_available_still_claims :
    (get_pending_job true 1 0 "t1" stPend).1 = some (mkJob "a" "pending" 0) ∧
    statusOf (get_pending_job true 1 0 "t1" stPend).2 "a" = some "running" := by
  refine ⟨by decide, by decide⟩

/-- C4 (amended): for a worker-computed available time ≤ 0, get_pending_job
does not apply the deadline predicate and behaves exactly as with smart
scheduling disabled (it can still claim a pending job by priority); the
worker loop itself stops before claiming when its available time is ≤ 0
(run_scheduling_worker lines 330-338). -/
theorem claim_nonpositive_available (smart : Bool) (speed : ℚ)
    (max_runtime elapsed margin : ℚ) (now : String) (st : SchedState)
    (h : worker_available max_runtime elapsed margin ≤ 0) :
    get_pending_job smart speed (worker_available max_runtime elapsed margin) now st =
      get_pending_job false speed (worker_available max_runtime elapsed margin) now st ∧
    worker_continues max_runtime elapsed margin = false := by
  have hno : ¬ (0 : ℚ) < worker_available max_runtime elapsed margin := not_lt.mpr h
  constructor
  · have hpred :
        (fun j => eligiblePred smart speed (worker_available max_runtime elapsed margin) j) =
        (fun j => eligiblePred false speed (worker_available max_runtime elapsed margin) j) := by
      funext j
      simp [eligiblePred, hno]
    unfold get_pending_job eligibleJobs
    rw [hpred]
  · simp [worker_continues, hno]

/-- C4 witness: at max_runtime = 10, elapsed = 0, margin = 10 the available
time is 0 ≤ 0, the claim behaves as the non-smart claim on `stPend`, and the
worker-loop gate is closed. -/
theorem claim_nonpositive_available_witness :
    worker_available 10 0 10 ≤ 0 ∧
    (get_pending_job true 1 (worker_available 10 0 10) "t1" stPend =
        get_pending_job false 1 (worker_available 10 0 10) "t1" stPend ∧
      worker_continues 10 0 10 = false) :=
  ⟨by norm_num [worker_available],
   claim_nonpositive_available true 1 10 0 10 "t1" stPend (by norm_num [worker_available])⟩

/-- C5: when the eligible candidate list is non-empty, get_pending_job
returns exactly one job; it is eligible, has the maximum priority among
eligible jobs, and among eligible jobs of that priority it has the
lexicographically smallest job id (jobIdLe is the lexicographic order, the
one SQLite's BINARY TEXT ordering implements). -/
theorem get_pending_job_claims_top (smart : Bool) (speed avail : ℚ)
    (now : String) (st : SchedState)
    (h : eligibleJobs smart speed avail st ≠ []) :
    ∃ j, (get_pending_job smart speed avail now st).1 = some j ∧
      j ∈ eligibleJobs smart speed avail st ∧
      ∀ k ∈ eligibleJobs smart speed avail st,
        k.priority ≤ j.priority ∧
        (k.priority = j.priority → jobIdLe j.job_id k.job_id = true) := by
  obtain ⟨b, t, hbt⟩ : ∃ b t, eligibleJobs smart speed avail st = b :: t := by
    rcases hE : eligibleJobs smart speed avail st with _ | ⟨b, t⟩
    · exact absurd hE h
    · exact ⟨b, t, rfl⟩
  refine ⟨t.foldl pickStep b, ?_, ?_, ?_⟩
  · unfold get_pending_job
    rw [hbt]
    rfl
  · rw [hbt]
    rcases foldl_pickStep_mem t b with hm | hm
    · rw [hm]; exact List.mem_cons_self b t
    · exact List.mem_cons_of_mem b hm
  · intro k hk
    rw [hbt] at hk
    obtain ⟨hmin1, hmin2⟩ := foldl_pickStep_min t b
    have hpre : claimPrecedes (t.foldl pickStep b) k := by
      rcases List.mem_cons.mp hk with rfl | hk2
      · exact hmin1
      · exact hmin2 k hk2
    rcases hpre with hlt | ⟨heq, hle⟩
    · exact ⟨le_of_lt hlt, fun hpe => absurd hlt (by rw [hpe]; exact lt_irrefl _)⟩
    · exact ⟨le_of_eq heq, fun _ => hle⟩

/-- C5 witness: on the store `stPrio` with pending jobs a (priority 1) and
b (priority 2), the eligible list is non-empty and the claimed job is the
maximum-priority one. -/
theorem get_pending_job_claims_top_witness :
    eligibleJobs false 1 10 stPrio ≠ [] ∧
    (∃ j, (get_pending_job false 1 10 "t1" stPrio).1 = some j ∧
      j ∈ eligibleJobs false 1 10 stPrio ∧
      ∀ k ∈ eligibleJobs false 1 10 stPrio,
        k.priority ≤ j.priority ∧
        (k.priority = j.priority → jobIdLe j.job_id k.job_id = true)) :=
  ⟨by decide, get_pending_job_claims_top false 1 10 "t1" stPrio (by decide)⟩

/-- C6 counterexample: on the store `stRec` with exactly one 'running' row,
recover_stuck_jobs does reset that row to 'pending', but its return value is
None (the Python function has no return statement), not the integer count 1
the claim requires. -/
theorem recover_stuck_jobs_returns_none :
    (stRec.jobs.filter (fun j => decide (j.status = "running"))).length = 1 ∧
    (recover_stuck_jobs stRec).2 = none ∧
    statusOf (recover_stuck_jobs stRec).1 "r1" = some "pending" ∧
    statusOf (recover_stuck_jobs stRec).1 "d1" = some "done" := by
  refine ⟨by decide, by decide, by decide, by decide⟩

/-- C6 (amended): recover_stuck_jobs sets every row with status 'running' to
'pending' with started_at NULL, changes no row whose status is not
'running', and returns no value (None); the count of reset rows is only
logged. -/
theorem recover_stuck_jobs_resets_running (st : SchedState) :
    recover_stuck_jobs st =
      ({ st with jobs := st.jobs.map (fun j =>
          if j.status = "running" then { j with status := "pending", started_at := none }
          else j) }, none) :=
  recover_stuck_jobs_eq st

/-- C7: with smart scheduling enabled, positive available time and a
positive speed factor (the domain where rational division matches SQLite's
REAL division), a job is eligible iff it is pending and
estimate_time * 3600 / speed_factor ≤ available_seconds; a pending job with
estimate_time = 0 is always eligible; with smart scheduling disabled, the
deadline predicate is not applied and eligibility is exactly pendingness. -/
theorem smart_deadline_eligibility (speed avail : ℚ) (j : Job)
    (hsp : 0 < speed) (hav : 0 < avail) :
    (eligiblePred true speed avail j = true ↔
        (j.status = "pending" ∧ j.estimate_time * 3600 / speed ≤ avail)) ∧
    (j.status = "pending" → j.estimate_time = 0 →
        eligiblePred true speed avail j = true) ∧
    (eligiblePred false speed avail j = true ↔ j.status = "pending") := by
  refine ⟨?_, ?_, ?_⟩
  · simp [eligiblePred, hav]
  · intro hp he
    simp [eligiblePred, hav, hp, he, le_of_lt hav]
  · simp [eligiblePred]

/-- C7 witness: a pending job with a one-hour estimate on a host with speed
factor 2 and 3600 seconds available satisfies all three parts. -/
theorem smart_deadline_eligibility_witness :
    (0 : ℚ) < 2 ∧ (0 : ℚ) < 3600 ∧
    ((eligiblePred true 2 3600 jEst = true ↔
        (jEst.status = "pending" ∧ jEst.estimate_time * 3600 / 2 ≤ 3600)) ∧
      (jEst.status = "pending" → jEst.estimate_time = 0 →
          eligiblePred true 2 3600 jEst = true) ∧
      (eligiblePred false 2 3600 jEst = true ↔ jEst.status = "pending")) :=
  ⟨by norm_num, by norm_num,
   smart_deadline_eligibility 2 3600 jEst (by norm_num) (by norm_num)⟩

/-- C8: on a quiescent store (the model applies operations sequentially, so
no worker interleaves), running recovery n ≥ 1 times in sequence yields the
same store as running it exactly once. -/
theorem recovery_idempotent (st : SchedState) (n : Nat) (h : 1 ≤ n) :
    recoverIter n st = recoverIter 1 st := by
  cases n with
  | zero => exact absurd h (by omega)
  | succ m => exact recoverIter_succ m st

/-- C8 witness: three recoveries of `stRec` equal one recovery. -/
theorem recovery_idempotent_witness :
    1 ≤ 3 ∧ recoverIter 3 stRec = recoverIter 1 stRec :=
  ⟨by decide, recovery_idempotent stRec 3 (by decide)⟩

/-- C9: no sequence of core mutations (claims, finalizations, recoveries)
touches user data: every row keeps its JOBSCHEDULER_JOB_ID and its user
columns bit-for-bit, and no row is deleted (the row count is preserved). -/
theorem core_mutations_preserve_user_data (ops : List CoreOp) (st : SchedState) :
    (applyOps ops st).jobs.map userData = st.jobs.map userData ∧
    (applyOps ops st).jobs.length = st.jobs.length := by
  refine ⟨applyOps_userData ops st, ?_⟩
  have h := congrArg List.length (applyOps_userData ops st)
  simpa using h

/-- C10: mark_job_done rewrites exactly the four columns STATUS,
ELAPSED_TIME, FINISHED_AT and ERROR_MESSAGE of the rows with the given job
id — in particular STARTED_AT is untouched, so a job re-queued as 'pending'
keeps its old started_at and carries the new finished_at — leaves every
other row unchanged, and for an absent job id changes nothing (and, being a
total function, raises no error). -/
theorem mark_job_done_updates_exactly (jid st9 : String) (elapsed : ℚ)
    (err : Option String) (now : String) (st : SchedState) :
    List.Forall₂ (fun a b =>
        b.job_id = a.job_id ∧ b.priority = a.priority ∧
        b.estimate_time = a.estimate_time ∧ b.created_at = a.created_at ∧
        b.started_at = a.started_at ∧ b.depends_on = a.depends_on ∧
        b.heartbeat = a.heartbeat ∧ b.worker_id = a.worker_id ∧
        b.user_cols = a.user_cols ∧
        (a.job_id = jid → b.status = st9 ∧ b.elapsed_time = some elapsed ∧
            b.finished_at = some now ∧ b.error_message = err) ∧
        (a.job_id ≠ jid → b = a))
      st.jobs (mark_job_done jid st9 elapsed err now st).jobs ∧
    ((∀ j ∈ st.jobs, j.job_id ≠ jid) → mark_job_done jid st9 elapsed err now st = st) := by
  constructor
  · show List.Forall₂ _ st.jobs (st.jobs.map (finalizeUpdate jid st9 elapsed err now))
    rw [List.forall₂_map_right_iff]
    rw [List.forall₂_same]
    intro a ha
    by_cases h : a.job_id = jid
    · simp [finalizeUpdate, h]
    · simp [finalizeUpdate, h]
  · intro hall
    show { st with jobs := st.jobs.map (finalizeUpdate jid st9 elapsed err now) } = st
    have hmap : st.jobs.map (finalizeUpdate jid st9 elapsed err now) = st.jobs := by
      have hpt : ∀ j ∈ st.jobs, finalizeUpdate jid st9 elapsed err now j = j := by
        intro j hj
        simp [finalizeUpdate, hall j hj]
      calc st.jobs.map (finalizeUpdate jid st9 elapsed err now)
          = st.jobs.map id := List.map_congr_left hpt
        _ = st.jobs := List.map_id st.jobs
    rw [hmap]

/-- C10 witness: on the store `stRun` whose single row a is 'running' with
started_at t0, requeueing it as 'pending' with message m keeps started_at
and sets the four finalize fields; and finalizing an absent id changes
nothing. -/
theorem mark_job_done_updates_exactly_witness :
    statusOf (mark_job_done "a" "pending" 5 (some "m") "t1" stRun) "a" = some "pending" ∧
    (lookupJob (mark_job_done "a" "pending" 5 (some "m") "t1" stRun).jobs "a").map
        Job.started_at = some (some "t0") ∧
    (lookupJob (mark_job_done "a" "pending" 5 (some "m") "t1" stRun).jobs "a").map
        Job.finished_at = some (some "t1") ∧
    mark_job_done "zzz" "done" 5 none "t1" stRun = stRun := by
  refine ⟨by decide, by decide, by decide, ?_⟩
  exact (mark_job_done_updates_exactly "zzz" "done" 5 none "t1" stRun).2 (by decide)

end JobScheduler
